import Mathlib

/-!
Shallow embedding of the shadow-geometry pipeline of `S2shadowExtract.py`
(shadow binarization, histogram valley search, ridge extraction and
occluder/casted ray matching).  Python floats are modelled as exact
rationals; the float NaN is modelled by the `none` case of `FVal`;
Python exceptions are modelled by `Except PyErr`.
-/

/-- Python runtime errors that the embedded code can raise. -/
inductive PyErr
  | indexError
  | typeError
  | nameError
  | valueError
deriving DecidableEq

deriving instance DecidableEq for Except

/-- A float value: `none` models NaN, `some q` a finite float (exact ℚ). -/
abbrev FVal := Option ℚ

/-- Lift a binary arithmetic operation to NaN-propagating float values. -/
def fbin (f : ℚ → ℚ → ℚ) : FVal → FVal → FVal
  | some a, some b => some (f a b)
  | _, _ => none

def fmul : FVal → FVal → FVal := fbin (· * ·)

def fadd : FVal → FVal → FVal := fbin (· + ·)

def fsub : FVal → FVal → FVal := fbin (· - ·)

/-- Lift a unary function (such as sin or cos) to NaN-propagating values. -/
def fmap1 (f : ℚ → ℚ) : FVal → FVal
  | some a => some (f a)
  | none => none

/-- `np.sign`: sign of a float, NaN for NaN. -/
def fsign : FVal → FVal
  | some a => some (if 0 < a then 1 else if a < 0 then -1 else 0)
  | none => none

/-- A 2-D array, row major. -/
abbrev Grid (α : Type) := List (List α)

/-- Element access for rational grids (in-bounds reads agree with numpy). -/
def gget (g : Grid ℚ) (i j : ℕ) : ℚ := (g.getD i []).getD j 0

/-- Element access for integer grids. -/
def igget (g : Grid ℤ) (i j : ℕ) : ℤ := (g.getD i []).getD j 0

/-- Element access for float grids. -/
def fgget (g : Grid FVal) (i j : ℕ) : FVal := (g.getD i []).getD j none

/-! ## findValley (`S2shadowExtract.py` lines 303-323)

`np.roll(values, s)[j] = values[(j - s) mod n]`.  For `neighbors = k` the
code stacks the rolled walls, takes `np.diff` along the stacking axis and
keeps index `j` when every consecutive wall step strictly increases
outward; the valley bin itself is never compared with its walls.  The
`concavP`/`concavM` locals are assigned only under `if neighbors > 1`,
so `neighbors <= 1` reads an undefined local (Python NameError). -/

/-- `values[(j mod n)]`, the cyclic read produced by `np.roll`. -/
def vmod (values : List ℤ) (j : ℤ) : ℤ :=
  values.getD ((j % (values.length : ℤ)).toNat) 0

/-- Python slice `l[s : -e]` (negative stop). -/
def pySliceNeg {α : Type} (l : List α) (s e : ℕ) : List α :=
  (l.drop s).take (l.length - e - s)

/-- Wall condition on the left flank of bin `j`: every consecutive pair of
rolled walls strictly increases outward (`np.diff(wallP) == +1` rows). -/
def concavP (values : List ℤ) (k : ℕ) (j : ℕ) : Bool :=
  (List.range (k - 1)).all fun i =>
    decide (vmod values ((j : ℤ) - i - 2) > vmod values ((j : ℤ) - i - 1))

/-- Wall condition on the right flank of bin `j`. -/
def concavM (values : List ℤ) (k : ℕ) (j : ℕ) : Bool :=
  (List.range (k - 1)).all fun i =>
    decide (vmod values ((j : ℤ) + i + 2) > vmod values ((j : ℤ) + i + 1))

/-- `selec = np.all(np.vstack((concavP, concavM)), axis=0)`. -/
def valleySelec (values : List ℤ) (k : ℕ) : List Bool :=
  (List.range values.length).map fun j => concavP values k j && concavM values k j

/-- `findValley(values, base, neighbors)`.  The `concavP`/`concavM` locals
are only assigned on the `neighbors > 1` branch, so `neighbors <= 1`
raises a NameError when line 317 reads them. -/
def findValley (values : List ℤ) (base : List ℚ) (neighbors : ℕ) :
    Except PyErr (List ℚ) :=
  if neighbors ≤ 1 then .error .nameError
  else
    .ok (((pySliceNeg base (neighbors - 1) (neighbors + 2)).zip
          (pySliceNeg (valleySelec values neighbors) (neighbors - 1) (neighbors + 1))).filterMap
          fun p => if p.2 then some p.1 else none)

/-- Python `max` over a list: ValueError on the empty sequence. -/
def pyMax (l : List ℚ) : Except PyErr ℚ :=
  match l with
  | [] => .error .valueError
  | a :: t => .ok (t.foldl max a)

/-- The thresholding step of `getShadows` (lines 297-298):
`dips = findValley(values, base, 2); val = max(dips)`. -/
def getShadowsThreshold (values : List ℤ) (base : List ℚ) : Except PyErr ℚ :=
  match findValley values base 2 with
  | .error e => .error e
  | .ok dips => pyMax dips

/-! ## Median filtering (`getShadows`, lines 289-301)

`scipy.ndimage.median_filter(M, size=siz)` ranks the `siz * siz` window
around each pixel (boundary mode reflect) and keeps the element of rank
`siz*siz / 2` (integer division) of the ascending order.  The loop body
of `getShadows` filters the original `M` on every iteration (`Mmed`
is never fed back), which the embedding reproduces verbatim. -/

/-- Boundary index with scipy reflect mode `(d c b a | a b c d | d c b a)`,
for offsets within one grid period. -/
def reflIdx (n : ℕ) (i : ℤ) : ℕ :=
  if i < 0 then (-i - 1).toNat
  else if i < (n : ℤ) then i.toNat
  else (2 * (n : ℤ) - 1 - i).toNat

/-- Insert into an ascending list, keeping it sorted. -/
def insertSorted (a : ℚ) : List ℚ → List ℚ
  | [] => [a]
  | b :: t => if a ≤ b then a :: b :: t else b :: insertSorted a t

/-- Ascending insertion sort. -/
def sortQ (l : List ℚ) : List ℚ := l.foldr insertSorted []

/-- The rank-`(n/2)` element of the window, scipy's median for `n` values. -/
def medianOfList (l : List ℚ) : ℚ := (sortQ l).getD (l.length / 2) 0

/-- `scipy.ndimage.median_filter(M, size=siz)` with reflect boundaries. -/
def medianFilter (M : Grid ℚ) (siz : ℕ) : Grid ℚ :=
  (List.range M.length).map fun i =>
    (List.range (M.headD []).length).map fun j =>
      medianOfList (((List.range siz).map fun u =>
        (List.range siz).map fun v =>
          gget M (reflIdx M.length ((i : ℤ) + u - (siz : ℤ) / 2))
                 (reflIdx (M.headD []).length ((j : ℤ) + v - (siz : ℤ) / 2))).flatten)

/-- The smoothing loop of `getShadows` (lines 291-293): every iteration
discards the accumulator and filters the original `M` again. -/
def getShadowsSmoothed (M : Grid ℚ) (siz : ℕ) (loopN : ℕ) : Grid ℚ :=
  (List.range loopN).foldl (fun _Mmed _i => medianFilter M siz) M

/-! ## Orientation field (`castOrientation`, lines 326-332)

`kernel = np.array([[17],[61],[17]]) * np.array([-1,0,1]) / 95` and
`scipy.ndimage.convolve(I, W)[i][j] = sum W[u][v] * I[i+1-u][j+1-v]`
(true convolution, reflect boundary).  `Idy` uses
`np.flip(np.transpose(kernel), axis=0)`, whose entry `(u, v)` is
`-d[u] * w[v] / 95` for `w = [17,61,17]`, `d = [-1,0,1]`.  The sun
zenith argument is accepted but never used, exactly as in the source.
`math.sin(math.radians az)` and the cosine are abstracted as the
function parameters `sind`/`cosd` (their pointwise values never matter
to the claims); NaN angles propagate through `fmap1`/`fmul`/`fsub`. -/

/-- The `Idx` kernel: entry `(u, v) = w[u] * d[v] / 95`. -/
def kernelX : Grid ℚ :=
  [[-17/95, 0, 17/95], [-61/95, 0, 61/95], [-17/95, 0, 17/95]]

/-- The `Idy` kernel `np.flip(np.transpose(kernelX), axis=0)`:
entry `(u, v) = -d[u] * w[v] / 95`. -/
def kernelY : Grid ℚ :=
  [[17/95, 61/95, 17/95], [0, 0, 0], [-17/95, -61/95, -17/95]]

/-- `scipy.ndimage.convolve` with a 3x3 kernel, reflect boundary. -/
def conv3 (ker : Grid ℚ) (I : Grid ℚ) : Grid ℚ :=
  (List.range I.length).map fun i =>
    (List.range (I.headD []).length).map fun j =>
      (((List.range 3).map fun u =>
        ((List.range 3).map fun v =>
          gget ker u v * gget I (reflIdx I.length ((i : ℤ) + 1 - u))
            (reflIdx (I.headD []).length ((j : ℤ) + 1 - v))).sum).sum)

/-- `castOrientation(I, sunZn, sunAz)`:
`Ican = cos(radians(sunAz)) * Idy - sin(radians(sunAz)) * Idx`. -/
def castOrientation (sind cosd : ℚ → ℚ) (I : Grid ℚ)
    (_sunZn sunAz : Grid FVal) : Grid FVal :=
  (List.range I.length).map fun i =>
    (List.range (I.headD []).length).map fun j =>
      fsub (fmul (fmap1 cosd (fgget sunAz i j)) (some (gget (conv3 kernelY I) i j)))
           (fmul (fmap1 sind (fgget sunAz i j)) (some (gget (conv3 kernelX I) i j)))

/-- `np.sign` applied elementwise. -/
def signGrid (g : Grid FVal) : Grid FVal := g.map fun row => row.map fsign

/-- `msk = labels > 1` cast to float, the input of `castOrientation`. -/
def mskGrid (labels : Grid ℤ) : Grid ℚ :=
  labels.map fun row => row.map fun v => if 1 < v then 1 else 0

/-! ## Polygon boundary and ridge pixels (lines 355-363)

`polyRast = labels == val`; `polyInnr = binary_erosion(polyRast,
np.ones((3,3)))` with scipy's zero border value, so a pixel erodes only
when all nine neighbours are in bounds and carry the label;
`polyBoun = logical_xor(polyRast, polyInnr)`; `np.nonzero` enumerates in
row-major order; ridge pixels are the boundary pixels whose orientation
sign equals 1. -/

/-- `labels[i][j] == val` for integer coordinates, false out of bounds. -/
def labelEq (labels : Grid ℤ) (val : ℤ) (i j : ℤ) : Bool :=
  decide (0 ≤ i) && decide (i < (labels.length : ℤ)) &&
  decide (0 ≤ j) && decide (j < ((labels.headD []).length : ℤ)) &&
  decide (igget labels i.toNat j.toNat = val)

/-- The 3x3 all-ones structuring element, as offsets. -/
def offsets3 : List (ℤ × ℤ) :=
  [(-1, -1), (-1, 0), (-1, 1), (0, -1), (0, 0), (0, 1), (1, -1), (1, 0), (1, 1)]

/-- Binary erosion membership: all nine neighbours carry the label. -/
def erodeAt (labels : Grid ℤ) (val : ℤ) (i j : ℤ) : Bool :=
  offsets3.all fun d => labelEq labels val (i + d.1) (j + d.2)

/-- `polyBoun = np.logical_xor(polyRast, polyInnr)` at one pixel. -/
def bounAt (labels : Grid ℤ) (val : ℤ) (i j : ℤ) : Bool :=
  xor (labelEq labels val i j) (erodeAt labels val i j)

/-- All in-bounds pixel coordinates in row-major order. -/
def allCells (labels : Grid ℤ) : List (ℕ × ℕ) :=
  ((List.range labels.length).map fun i =>
    (List.range (labels.headD []).length).map fun j => (i, j)).flatten

/-- The pixels of the labelled region. -/
def regionCells (labels : Grid ℤ) (val : ℤ) : List (ℕ × ℕ) :=
  (allCells labels).filter fun c => labelEq labels val c.1 c.2

/-- `np.nonzero(polyBoun)`: boundary pixels in row-major order. -/
def bounCells (labels : Grid ℤ) (val : ℤ) : List (ℕ × ℕ) :=
  (allCells labels).filter fun c => bounAt labels val c.1 c.2

/-- Boundary pixels whose orientation sign is 1 (`ridgIdx` selection). -/
def ridgeCells (labels : Grid ℤ) (val : ℤ) (mskOrient : Grid FVal) :
    List (ℕ × ℕ) :=
  (bounCells labels val).filter fun c => fgget mskOrient c.1 c.2 == some 1

/-! ## Ray casting (lines 366-407)

The shapely polygon and its line intersection are external collaborators:
an oracle maps the cast line to a tagged geometry result.  The branch
ladder of lines 371-387 flattens LineString/MultiLineString/
GeometryCollection results into a coordinate list; an empty collection
leaves the loop variable `m` unassigned, so `del m, cEnd` raises a
NameError, and a Point result reaches the final `else` (only a print)
after which `len(castEnd)` on a Point raises a TypeError. -/

/-- A planar point in `(x, y) = (col, row)` order. -/
abbrev Pt := ℚ × ℚ

/-- The cast line: exact start pixel and a possibly-NaN far endpoint. -/
abbrev CastLine := Pt × (FVal × FVal)

/-- Components of a GeometryCollection produced by a line-polygon
intersection (points and line strings). -/
inductive GeomPart
  | pt (p : Pt)
  | ls (cs : List Pt)

/-- Tagged shapely geometry returned by `polygoon.intersection`. -/
inductive Geom
  | point (p : Pt)
  | lineString (cs : List Pt)
  | multiLineString (ls : List (List Pt))
  | geometryCollection (gs : List GeomPart)

/-- `.coords[:]` of a collection component. -/
def partCoords : GeomPart → List Pt
  | .pt p => [p]
  | .ls cs => cs

/-- The type-dispatch ladder of lines 371-387 followed by the `len`
test of line 390: flatten the intersection into candidate points. -/
def flattenGeom : Geom → Except PyErr (List Pt)
  | .lineString cs => .ok cs
  | .multiLineString ls =>
      if ls.isEmpty then .error .nameError else .ok ls.flatten
  | .geometryCollection gs =>
      if gs.isEmpty then .error .nameError
      else .ok (gs.map partCoords).flatten
  | .point _ => .error .typeError

/-- Squared Euclidean distance (order-isomorphic to shapely's float
distance on exact inputs; zero exactly at the self-intersection). -/
def sqDist (a b : Pt) : ℚ := (a.1 - b.1) ^ 2 + (a.2 - b.2) ^ 2

/-- A distance that may be the `float('Inf')` substituted at line 396. -/
inductive DistQ
  | inf
  | fin (q : ℚ)
deriving DecidableEq

/-- Order on distances with `inf` as the top element. -/
def dle : DistQ → DistQ → Bool
  | .fin a, .fin b => decide (a ≤ b)
  | .fin _, .inf => true
  | .inf, .inf => true
  | .inf, .fin _ => false

/-- Binary minimum of distances. -/
def dmin (a b : DistQ) : DistQ := if dle a b then a else b

/-- `dists` after the Inf substitution of line 396: the distance-zero
self-intersection is replaced by infinity. -/
def adjDists (origin : Pt) (castEnd : List Pt) : List DistQ :=
  castEnd.map fun c =>
    if sqDist c origin = 0 then .inf else .fin (sqDist c origin)

/-- Python `min` over the adjusted distances. -/
def listMin (l : List DistQ) : DistQ := l.foldr dmin .inf

/-- `dists.index(min(dists))`: first index attaining the minimum. -/
def pyMinIdx (l : List DistQ) : ℕ :=
  l.findIdx fun x => decide (x = listMin l)

/-- `casted = castEnd[castIdx]` (lines 393-398); the default is never
used because the caller guarantees a nonempty candidate list. -/
def selectCasted (origin : Pt) (castEnd : List Pt) : Pt :=
  castEnd.getD (pyMinIdx (adjDists origin castEnd)) origin

/-- One element of `castList`:
`np.array([ridgeI[x], ridgeJ[x], casted[1], casted[0], az, zn])`. -/
structure CastRecord where
  oc_i : ℚ
  oc_j : ℚ
  cast_i : ℚ
  cast_j : ℚ
  az : FVal
  zn : FVal
deriving DecidableEq

/-- The body of the ridge loop for one loop value `x` (lines 366-405).
The Python loop variable `x` is a ridge ROW VALUE yet is used as a list
index; an out-of-range value raises an IndexError. -/
def processRidgePixel (inter : CastLine → Geom) (sunAz sunZn : Grid FVal)
    (ridgeI ridgeJ : List ℕ) (sind cosd : ℚ → ℚ) (x : ℕ) :
    Except PyErr (Option CastRecord) :=
  if x < ridgeI.length ∧ x < ridgeJ.length then
    let ix := ridgeI.getD x 0
    let jx := ridgeJ.getD x 0
    let az := fgget sunAz ix jx
    let castLine : CastLine :=
      ((jx, ix),
       (fsub (some jx) (fmul (fmap1 sind az) (some 10000)),
        fadd (some ix) (fmul (fmap1 cosd az) (some 10000))))
    match flattenGeom (inter castLine) with
    | .error e => .error e
    | .ok castEnd =>
        if 1 < castEnd.length then
          .ok (some ⟨ix, jx, (selectCasted (jx, ix) castEnd).2,
                (selectCasted (jx, ix) castEnd).1, az, fgget sunZn ix jx⟩)
        else .ok none
  else .error .indexError

/-- The ridge loop `for x in ridgeI` of one polygon: iterates over the
ridge ROW VALUES, accumulating cast records; a Python exception aborts. -/
def castRidges (inter : CastLine → Geom) (sunAz sunZn : Grid FVal)
    (ridgeI ridgeJ : List ℕ) (sind cosd : ℚ → ℚ) :
    Except PyErr (List CastRecord) :=
  ridgeI.foldl
    (fun acc x =>
      match acc with
      | .error e => .error e
      | .ok recs =>
          match processRidgePixel inter sunAz sunZn ridgeI ridgeJ sind cosd x with
          | .error e => .error e
          | .ok none => .ok recs
          | .ok (some r) => .ok (recs ++ [r]))
    (.ok [])

/-- `listOccluderAndCasted(labels, sunZn, sunAz, geoTransform)`
(lines 342-407).  The `shapes(labels, mask=labels>1, connectivity=8)`
generator is an external collaborator, modelled as the input list of
`(val, polygon-intersection oracle)` pairs; only entries whose value
equals the hardcoded 48 are processed.  `occStep` is the body of the
per-polygon fold. -/
def occStep (labels : Grid ℤ) (sunZn sunAz : Grid FVal) (sind cosd : ℚ → ℚ)
    (mskOrient : Grid FVal) :
    Except PyErr (List CastRecord) → ℤ × (CastLine → Geom) →
      Except PyErr (List CastRecord)
  | .error e, _ => .error e
  | .ok recs, entry =>
      if entry.1 = 48 then
        match castRidges entry.2 sunAz sunZn
            ((ridgeCells labels entry.1 mskOrient).map Prod.fst)
            ((ridgeCells labels entry.1 mskOrient).map Prod.snd)
            sind cosd with
        | .error e => .error e
        | .ok more => .ok (recs ++ more)
      else .ok recs

/-- The full matcher: fold `occStep` over the shapes entries, with the
orientation-sign field computed once over the whole image. -/
def listOccluderAndCasted (shapesList : List (ℤ × (CastLine → Geom)))
    (labels : Grid ℤ) (sunZn sunAz : Grid FVal) (sind cosd : ℚ → ℚ) :
    Except PyErr (List CastRecord) :=
  shapesList.foldl
    (occStep labels sunZn sunAz sind cosd
      (signGrid (castOrientation sind cosd (mskGrid labels) sunZn sunAz)))
    (.ok [])

/-! ## Concrete test scene

A 3x4 label raster whose 3x3 block in columns 0-2 is one shadow polygon;
the sun azimuth is 0 everywhere, the abstract sine/cosine values are
chosen so that the orientation sign is 1 exactly on columns 2-3, making
the polygon's east boundary column the ridge. -/

/-- Label raster with the polygon labelled 48 (the hardcoded id). -/
def labA : Grid ℤ := [[48, 48, 48, 0], [48, 48, 48, 0], [48, 48, 48, 0]]

/-- The same scene with the polygon labelled 2. -/
def labB : Grid ℤ := [[2, 2, 2, 0], [2, 2, 2, 0], [2, 2, 2, 0]]

/-- All-zero azimuth grid (valid values everywhere). -/
def azZero : Grid FVal :=
  [[some 0, some 0, some 0, some 0], [some 0, some 0, some 0, some 0],
   [some 0, some 0, some 0, some 0]]

/-- Constant valid zenith grid. -/
def znFive : Grid FVal :=
  [[some 5, some 5, some 5, some 5], [some 5, some 5, some 5, some 5],
   [some 5, some 5, some 5, some 5]]

/-- All-NaN zenith grid. -/
def znNaN : Grid FVal :=
  [[none, none, none, none], [none, none, none, none],
   [none, none, none, none]]

/-- All-NaN azimuth grid. -/
def azNaN : Grid FVal :=
  [[none, none, none, none], [none, none, none, none],
   [none, none, none, none]]

/-- Abstract sine (constant -1, a legal value of `math.sin`). -/
def sindM1 : ℚ → ℚ := fun _ => -1

/-- Abstract cosine (constant 0). -/
def cosd0 : ℚ → ℚ := fun _ => 0

/-- Intersection oracle: every cast line meets the polygon in the
segment from `(2, 0)` to `(0, 0)`. -/
def oracleL : CastLine → Geom := fun _ => Geom.lineString [(2, 0), (0, 0)]

/-! ## Theorems -/

/-- A Python slice `l[s : -e]` is empty when the list has at most `e + s`
elements. -/
theorem pySliceNeg_eq_nil {α : Type} (l : List α) (s e : ℕ)
    (h : l.length ≤ e + s) : pySliceNeg l s e = [] := by
  unfold pySliceNeg
  have hz : l.length - e - s = 0 := by omega
  rw [hz, List.take_zero]

/-- C4: on the spec scenario histogram `[5,1,0,1,5,9,5,1,0,1,5]` with base
matching its bin edges, `findValley` with `neighbors = 2` returns the base
values of bins 2, 3 and 7 — not the two zero-valued bins 2 and 8 that the
claim requires — and `max(dips)` selects 7, not the higher zero bin 8. -/
theorem findValley_scenario_eval :
    findValley [5, 1, 0, 1, 5, 9, 5, 1, 0, 1, 5]
      [0, 1, 2, 3, 4, 5, 6, 7, 8, 9, 10, 11] 2 = .ok [2, 3, 7] ∧
    getShadowsThreshold [5, 1, 0, 1, 5, 9, 5, 1, 0, 1, 5]
      [0, 1, 2, 3, 4, 5, 6, 7, 8, 9, 10, 11] = .ok 7 ∧
    (8 : ℚ) ∉ [(2 : ℚ), 3, 7] := by
  refine ⟨rfl, rfl, by decide⟩

/-- C5 counterexample: on a histogram with fewer than `2k+1 = 5` bins the
code raises the unguarded Python ValueError of `max` on an empty sequence
(no DegenerateHistogram condition exists anywhere in the code). -/
theorem getShadowsThreshold_degenerate_eval :
    getShadowsThreshold [1, 2, 3] [0, 1, 2, 3] = .error .valueError := rfl

/-- C5 (amended): for every histogram with fewer than 5 bins, `findValley`
with `neighbors = 2` returns an empty valley list and the caller's
`max(dips)` step raises an unguarded ValueError; no recoverable
DegenerateHistogram condition is signalled. -/
theorem findValley_degenerate (values : List ℤ) (base : List ℚ)
    (h : values.length < 5) :
    findValley values base 2 = .ok [] ∧
    getShadowsThreshold values base = .error .valueError := by
  have hsel : pySliceNeg (valleySelec values 2) 1 3 = [] := by
    refine pySliceNeg_eq_nil _ _ _ ?_
    have : (valleySelec values 2).length = values.length := by
      simp [valleySelec]
    omega
  have h1 : findValley values base 2 = .ok [] := by
    unfold findValley
    rw [if_neg (by omega)]
    show Except.ok (((pySliceNeg base 1 4).zip
      (pySliceNeg (valleySelec values 2) 1 3)).filterMap
      fun p => if p.2 then some p.1 else none) = _
    rw [hsel, List.zip_nil_right, List.filterMap_nil]
  refine ⟨h1, ?_⟩
  unfold getShadowsThreshold
  rw [h1]
  rfl

/-- C5 witness: instantiation of the degenerate-histogram theorem on a
four-bin histogram. -/
theorem findValley_degenerate_witness :
    ([1, 2, 3, 4] : List ℤ).length < 5 ∧
    getShadowsThreshold [1, 2, 3, 4] [0, 1, 2, 3, 4] = .error .valueError :=
  ⟨by decide, (findValley_degenerate [1, 2, 3, 4] [0, 1, 2, 3, 4] (by decide)).2⟩

/-- C10: `findValley` raises a NameError for every input when
`neighbors = 1` (the `concavP`/`concavM` locals are only assigned on the
`neighbors > 1` branch but read unconditionally), while every call with
`neighbors >= 2` returns normally: the neighbor window has an implicit
lower bound of 2. -/
theorem findValley_neighbors_bound :
    (∀ (values : List ℤ) (base : List ℚ),
      findValley values base 1 = .error .nameError) ∧
    (∀ (values : List ℤ) (base : List ℚ) (k : ℕ), 2 ≤ k →
      ∃ dips, findValley values base k = .ok dips) := by
  constructor
  · intro v b; rfl
  · intro v b k hk
    exact ⟨_, by unfold findValley; rw [if_neg (by omega)]⟩

/-- C10 witness: the bound theorem instantiated at a concrete histogram. -/
theorem findValley_neighbors_bound_witness :
    findValley [1, 2] [0, 1, 2] 1 = .error .nameError ∧
    ∃ dips, findValley [1, 2] [0, 1, 2] 2 = .ok dips :=
  ⟨findValley_neighbors_bound.1 [1, 2] [0, 1, 2],
   findValley_neighbors_bound.2 [1, 2] [0, 1, 2] 2 (by omega)⟩

/-- Concrete shadow field: a ring of high values around a low center. -/
def mRing : Grid ℚ :=
  [[0, 0, 0, 0, 0], [0, 9, 9, 9, 0], [0, 9, 0, 9, 0], [0, 9, 9, 9, 0],
   [0, 0, 0, 0, 0]]

/-- C3: the field that `getShadows` goes on to histogram is a single
median-filter pass of the original `M` even for `loop = 2` — the loop body
filters `M`, never the previous iteration's output — and this differs
from the genuine two-fold iterated median filter, refuting the claim that
higher loop counts progressively smooth the field. -/
theorem getShadows_smoothing_eval :
    getShadowsSmoothed mRing 3 2 = medianFilter mRing 3 ∧
    getShadowsSmoothed mRing 3 2 ≠ medianFilter (medianFilter mRing 3) 3 := by
  refine ⟨by decide, by decide⟩

/-- C1: the matcher does not process every positive label.  The same scene
labelled 2 yields no cast records at all, while labelled 48 it yields
three — the loop body runs only under the hardcoded `val == 48` test, so
every polygon with any other id is excluded. -/
theorem listOccluder_label_filter_eval :
    listOccluderAndCasted [((2 : ℤ), oracleL)] labB znFive azZero sindM1 cosd0 =
      .ok [] ∧
    listOccluderAndCasted [((48 : ℤ), oracleL)] labA znFive azZero sindM1 cosd0 =
      .ok [⟨0, 2, 0, 0, some 0, some 5⟩, ⟨1, 2, 0, 2, some 0, some 5⟩,
           ⟨2, 2, 0, 2, some 0, some 5⟩] := by
  exact ⟨by with_unfolding_all decide, by with_unfolding_all decide⟩

/-- C2: the ridge loop indexes the ridge arrays by the pixel's ROW VALUE,
not by its enumeration position.  With ridge pixels `(1,4)` and `(2,0)`
the first loop value `x = 1` reads the coordinates of the pixel stored at
index 1 — emitting occluder `(2,0)` where the claim requires `(1,4)` —
and the loop value `x = 2` is out of range, raising an IndexError. -/
theorem castRidges_value_index_eval :
    processRidgePixel oracleL azZero znFive [1, 2] [4, 0] sindM1 cosd0 1 =
      .ok (some ⟨2, 0, 0, 0, some 0, some 5⟩) ∧
    castRidges oracleL azZero znFive [1, 2] [4, 0] sindM1 cosd0 =
      .error .indexError := by
  exact ⟨by with_unfolding_all decide, by with_unfolding_all decide⟩

/-- C7: a degenerate intersection does not lead to a silent skip.  A
single-Point intersection falls through the unhandled type branch and the
subsequent `len(castEnd)` on a Point raises a TypeError; an empty
GeometryCollection intersection leaves the flattening loop variable
unassigned and `del m, cEnd` raises a NameError.  Only list-shaped
results with fewer than 2 flattened points are skipped without error. -/
theorem castRidges_degenerate_eval :
    castRidges (fun _ => Geom.point (3, 3)) azZero znFive [0] [0] sindM1 cosd0 =
      .error .typeError ∧
    castRidges (fun _ => Geom.geometryCollection []) azZero znFive [0] [0]
      sindM1 cosd0 = .error .nameError ∧
    castRidges (fun _ => Geom.lineString [(5, 5)]) azZero znFive [0] [0]
      sindM1 cosd0 = .ok [] := by
  exact ⟨by with_unfolding_all decide, by with_unfolding_all decide,
    by with_unfolding_all decide⟩

/-- A list of NaN values reads as NaN at every index. -/
theorem getD_of_forall_none (l : List FVal) (hl : ∀ x ∈ l, x = none) :
    ∀ j, l.getD j none = none := by
  induction l with
  | nil => intro j; exact List.getD_nil
  | cons a t ih =>
    intro j
    cases j with
    | zero =>
      rw [List.getD_cons_zero]
      exact hl a (List.mem_cons_self a t)
    | succ n =>
      rw [List.getD_cons_succ]
      exact ih (fun x hx => hl x (List.mem_cons_of_mem a hx)) n

/-- A grid of NaN values reads as NaN at every pixel. -/
theorem fgget_of_forall_none (g : Grid FVal)
    (hg : ∀ row ∈ g, ∀ x ∈ row, x = none) (i j : ℕ) : fgget g i j = none := by
  unfold fgget
  induction g generalizing i with
  | nil => rw [List.getD_nil, List.getD_nil]
  | cons r t ih =>
    cases i with
    | zero =>
      rw [List.getD_cons_zero]
      exact getD_of_forall_none r (hg r (List.mem_cons_self r t)) j
    | succ n =>
      rw [List.getD_cons_succ]
      exact ih (fun row hr => hg row (List.mem_cons_of_mem r hr)) n

/-- C6 counterexample: ridge pixels whose sun ZENITH is NaN are not
skipped.  With an all-NaN zenith grid the matcher still emits all three
cast records of the test scene, each carrying a NaN zenith — refuting
the claim that NaN-zenith ridge pixels are dropped. -/
theorem listOccluder_nan_zenith_eval :
    listOccluderAndCasted [((48 : ℤ), oracleL)] labA znNaN azZero sindM1 cosd0 =
      .ok [⟨0, 2, 0, 0, some 0, none⟩, ⟨1, 2, 0, 2, some 0, none⟩,
           ⟨2, 2, 0, 2, some 0, none⟩] ∧
    ([⟨0, 2, 0, 0, some 0, none⟩, ⟨1, 2, 0, 2, some 0, none⟩,
      ⟨2, 2, 0, 2, some 0, none⟩] : List CastRecord) ≠ [] := by
  exact ⟨by with_unfolding_all decide, by decide⟩

/-- C6 (amended): ridge pixels whose sun AZIMUTH is NaN are skipped
before any geometry is constructed — a NaN azimuth makes the orientation
sign NaN, so the pixel never passes the `== 1` ridge test — hence a
polygon whose azimuth values are all NaN contributes no ridge pixels,
yields zero cast records, and the run returns normally.  Zenith plays no
part in the selection. -/
theorem listOccluder_all_nan_azimuth (shapesList : List (ℤ × (CastLine → Geom)))
    (labels : Grid ℤ) (sunZn sunAz : Grid FVal) (sind cosd : ℚ → ℚ)
    (haz : ∀ i j, fgget sunAz i j = none) :
    listOccluderAndCasted shapesList labels sunZn sunAz sind cosd = .ok [] := by
  have hmo : ∀ i j,
      fgget (signGrid (castOrientation sind cosd (mskGrid labels) sunZn sunAz)) i j
        = none := by
    intro i j
    apply fgget_of_forall_none
    intro row hrow x hx
    unfold signGrid at hrow
    obtain ⟨row1, hrow1, hr⟩ := List.mem_map.mp hrow
    subst hr
    obtain ⟨y, hy, hxeq⟩ := List.mem_map.mp hx
    subst hxeq
    unfold castOrientation at hrow1
    obtain ⟨a, _, hra⟩ := List.mem_map.mp hrow1
    subst hra
    obtain ⟨b, _, hyb⟩ := List.mem_map.mp hy
    subst hyb
    rw [haz a b]
    rfl
  have hridge : ∀ v : ℤ,
      ridgeCells labels v
        (signGrid (castOrientation sind cosd (mskGrid labels) sunZn sunAz)) = [] := by
    intro v
    unfold ridgeCells
    rw [List.filter_eq_nil_iff]
    intro c _
    rw [hmo c.1 c.2]
    decide
  unfold listOccluderAndCasted
  suffices h : ∀ (L : List (ℤ × (CastLine → Geom))) (recs : List CastRecord),
      L.foldl (occStep labels sunZn sunAz sind cosd
        (signGrid (castOrientation sind cosd (mskGrid labels) sunZn sunAz)))
        (.ok recs) = .ok recs by
    exact h shapesList []
  intro L
  induction L with
  | nil => intro recs; rfl
  | cons e t ih =>
    intro recs
    rw [List.foldl_cons]
    have hstep : occStep labels sunZn sunAz sind cosd
        (signGrid (castOrientation sind cosd (mskGrid labels) sunZn sunAz))
        (.ok recs) e = .ok recs := by
      rw [occStep]
      by_cases h48 : e.1 = 48
      · rw [if_pos h48, hridge e.1]
        show Except.ok (recs ++ []) = Except.ok recs
        rw [List.append_nil]
      · rw [if_neg h48]
    rw [hstep]
    exact ih recs

/-- C6 witness: the all-NaN-azimuth theorem applied to the test scene. -/
theorem listOccluder_all_nan_azimuth_witness :
    listOccluderAndCasted [((48 : ℤ), oracleL)] labA znFive azNaN sindM1 cosd0 =
      .ok [] :=
  listOccluder_all_nan_azimuth [((48 : ℤ), oracleL)] labA znFive azNaN sindM1
    cosd0 (fgget_of_forall_none azNaN (by decide))

/-- Ordering facts for the Inf-substituted distances. -/
theorem dle_fin_fin {a b : ℚ} : dle (.fin a) (.fin b) = true ↔ a ≤ b := by
  simp [dle]

theorem dle_inf_iff {x : DistQ} : dle .inf x = true ↔ x = .inf := by
  cases x <;> simp [dle]

theorem dmin_choice (a b : DistQ) : dmin a b = a ∨ dmin a b = b := by
  unfold dmin
  by_cases h : dle a b = true
  · rw [if_pos h]; exact Or.inl rfl
  · rw [if_neg h]; exact Or.inr rfl

theorem dle_of_not_dle {a b : DistQ} (h : ¬dle a b = true) : dle b a = true := by
  cases a <;> cases b <;> simp [dle] at h ⊢
  exact le_of_lt h

theorem dle_trans {a b c : DistQ} (h1 : dle a b = true) (h2 : dle b c = true) :
    dle a c = true := by
  cases a <;> cases b <;> cases c <;> simp [dle] at h1 h2 ⊢
  exact le_trans h1 h2

theorem dle_refl (a : DistQ) : dle a a = true := by
  cases a <;> simp [dle]

theorem dmin_le_left (a b : DistQ) : dle (dmin a b) a = true := by
  unfold dmin
  by_cases h : dle a b = true
  · rw [if_pos h]; exact dle_refl a
  · rw [if_neg h]; exact dle_of_not_dle h

theorem dmin_le_right (a b : DistQ) : dle (dmin a b) b = true := by
  unfold dmin
  by_cases h : dle a b = true
  · rw [if_pos h]; exact h
  · rw [if_neg h]; exact dle_refl b

/-- Python `min` is a lower bound of the list. -/
theorem listMin_le (l : List DistQ) : ∀ x ∈ l, dle (listMin l) x = true := by
  induction l with
  | nil => intro x hx; cases hx
  | cons a t ih =>
    intro x hx
    have hstep : listMin (a :: t) = dmin a (listMin t) := rfl
    rcases List.mem_cons.mp hx with h | h
    · rw [hstep, h]; exact dmin_le_left a (listMin t)
    · rw [hstep]
      exact dle_trans (dmin_le_right a (listMin t)) (ih x h)

/-- Python `min` of a list is an element unless the list holds no finite
value at all. -/
theorem listMin_mem_or_inf (l : List DistQ) :
    listMin l = .inf ∨ listMin l ∈ l := by
  induction l with
  | nil => exact Or.inl rfl
  | cons a t ih =>
    have hstep : listMin (a :: t) = dmin a (listMin t) := rfl
    rcases dmin_choice a (listMin t) with h | h
    · exact Or.inr (by rw [hstep, h]; exact List.mem_cons_self a t)
    · rcases ih with h2 | h2
      · exact Or.inl (by rw [hstep, h, h2])
      · exact Or.inr (by rw [hstep, h]; exact List.mem_cons_of_mem a h2)

/-- The squared distance vanishes exactly at the self-intersection. -/
theorem sqDist_eq_zero_iff (a b : Pt) : sqDist a b = 0 ↔ a = b := by
  unfold sqDist
  constructor
  · intro h
    have h1 : (a.1 - b.1) ^ 2 = 0 := by
      nlinarith [sq_nonneg (a.1 - b.1), sq_nonneg (a.2 - b.2)]
    have h2 : (a.2 - b.2) ^ 2 = 0 := by
      nlinarith [sq_nonneg (a.1 - b.1), sq_nonneg (a.2 - b.2)]
    have e1 : a.1 = b.1 := by have := sq_eq_zero_iff.mp h1; linarith
    have e2 : a.2 = b.2 := by have := sq_eq_zero_iff.mp h2; linarith
    exact Prod.ext e1 e2
  · intro h; subst h; ring

/-- C8 counterexample: when every candidate intersection point coincides
with the ridge pixel, every distance is replaced by infinity, `min`
returns infinity, `index` returns 0, and the emitted record's casted
point EQUALS its occluder — refuting the unconditional no-self-match
claim. -/
theorem castRidges_self_match_eval :
    castRidges (fun _ => Geom.lineString [(0, 0), (0, 0)]) azZero znFive [0] [0]
      sindM1 cosd0 = .ok [⟨0, 0, 0, 0, some 0, some 5⟩] ∧
    selectCasted (0, 0) [(0, 0), (0, 0)] = (0, 0) := by
  exact ⟨by with_unfolding_all decide, by with_unfolding_all decide⟩

/-- C8 (amended): whenever at least one candidate point differs from the
ridge pixel, the selected casted point is a candidate, differs from the
occluder, and attains the minimum nonzero squared distance (the zero
distance of the self-intersection having been replaced by infinity);
if every candidate coincides with the ridge pixel the record is still
emitted with casted equal to occluder. -/
theorem selectCasted_min_nonzero (origin : Pt) (castEnd : List Pt)
    (hex : ∃ c ∈ castEnd, c ≠ origin) :
    selectCasted origin castEnd ∈ castEnd ∧
    selectCasted origin castEnd ≠ origin ∧
    ∀ c ∈ castEnd, c ≠ origin →
      sqDist (selectCasted origin castEnd) origin ≤ sqDist c origin := by
  obtain ⟨c0, hc0, hc0ne⟩ := hex
  have hd0 : sqDist c0 origin ≠ 0 :=
    fun h => hc0ne ((sqDist_eq_zero_iff c0 origin).mp h)
  have hmem0 : DistQ.fin (sqDist c0 origin) ∈ adjDists origin castEnd := by
    unfold adjDists
    exact List.mem_map.mpr ⟨c0, hc0, by rw [if_neg hd0]⟩
  have hle0 := listMin_le (adjDists origin castEnd) _ hmem0
  have hminfin : listMin (adjDists origin castEnd) ≠ .inf := by
    intro h
    rw [h] at hle0
    rw [dle_inf_iff] at hle0
    cases hle0
  rcases listMin_mem_or_inf (adjDists origin castEnd) with h | hmem
  · exact absurd h hminfin
  have hfindlt : pyMinIdx (adjDists origin castEnd) <
      (adjDists origin castEnd).length := by
    unfold pyMinIdx
    apply List.findIdx_lt_length_of_exists
    exact ⟨listMin (adjDists origin castEnd), hmem, by simp⟩
  have hlen : (adjDists origin castEnd).length = castEnd.length := by
    unfold adjDists; exact List.length_map _ _
  have hklt : pyMinIdx (adjDists origin castEnd) < castEnd.length :=
    hlen ▸ hfindlt
  have hsel : selectCasted origin castEnd =
      castEnd.get ⟨pyMinIdx (adjDists origin castEnd), hklt⟩ := by
    unfold selectCasted
    rw [List.getD_eq_getElem _ _ hklt]
    rfl
  have hpk : (adjDists origin castEnd).get
        ⟨pyMinIdx (adjDists origin castEnd), hfindlt⟩
      = listMin (adjDists origin castEnd) := by
    have hfi := List.findIdx_getElem (w := hfindlt)
    exact of_decide_eq_true hfi
  have hlk : (adjDists origin castEnd).get
        ⟨pyMinIdx (adjDists origin castEnd), hfindlt⟩
      = (if sqDist (castEnd.get ⟨pyMinIdx (adjDists origin castEnd), hklt⟩)
            origin = 0
          then DistQ.inf
          else .fin (sqDist
            (castEnd.get ⟨pyMinIdx (adjDists origin castEnd), hklt⟩)
            origin)) := by
    simp [adjDists]
  have hselmem : selectCasted origin castEnd ∈ castEnd := by
    rw [hsel]; exact List.get_mem _ _ _
  have hselned :
      sqDist (castEnd.get ⟨pyMinIdx (adjDists origin castEnd), hklt⟩)
        origin ≠ 0 := by
    intro h0
    rw [h0] at hlk
    rw [if_pos rfl] at hlk
    exact hminfin (hpk ▸ hlk ▸ rfl)
  have hselne : selectCasted origin castEnd ≠ origin := by
    rw [hsel]
    intro heq
    exact hselned ((sqDist_eq_zero_iff _ origin).mpr heq)
  refine ⟨hselmem, hselne, ?_⟩
  intro c hc hcne
  have hdc : sqDist c origin ≠ 0 :=
    fun h => hcne ((sqDist_eq_zero_iff c origin).mp h)
  have hmemc : DistQ.fin (sqDist c origin) ∈ adjDists origin castEnd := by
    unfold adjDists
    exact List.mem_map.mpr ⟨c, hc, by rw [if_neg hdc]⟩
  have hlec := listMin_le (adjDists origin castEnd) _ hmemc
  have hminfinval : listMin (adjDists origin castEnd) =
      .fin (sqDist (castEnd.get ⟨pyMinIdx (adjDists origin castEnd), hklt⟩)
        origin) := by
    rw [← hpk, hlk, if_neg hselned]
  rw [hminfinval] at hlec
  rw [dle_fin_fin] at hlec
  rw [hsel]
  exact hlec

/-- C8 witness: the nearest-nonzero selection theorem applied to a
concrete candidate list containing the self-intersection. -/
theorem selectCasted_min_nonzero_witness :
    selectCasted (0, 0) [((0 : ℚ), (0 : ℚ)), (3, 0), (5, 0)] ≠ (0, 0) ∧
    selectCasted (0, 0) [((0 : ℚ), (0 : ℚ)), (3, 0), (5, 0)] ∈
      [((0 : ℚ), (0 : ℚ)), (3, 0), (5, 0)] := by
  have h := selectCasted_min_nonzero (0, 0) [((0 : ℚ), (0 : ℚ)), (3, 0), (5, 0)]
    ⟨(3, 0), by norm_num, by norm_num⟩
  exact ⟨h.2.1, h.1⟩

/-- Unpack the bounds and label test of a pixel membership check. -/
theorem labelEq_unpack {labels : Grid ℤ} {val : ℤ} {a b : ℤ}
    (h : labelEq labels val a b = true) :
    0 ≤ a ∧ a < (labels.length : ℤ) ∧ 0 ≤ b ∧
      b < ((labels.headD []).length : ℤ) ∧ igget labels a.toNat b.toNat = val := by
  unfold labelEq at h
  simp only [Bool.and_eq_true, decide_eq_true_eq] at h
  exact ⟨h.1.1.1.1, h.1.1.1.2, h.1.1.2, h.1.2, h.2⟩

/-- Membership in the row-major cell enumeration. -/
theorem mem_allCells (labels : Grid ℤ) (x y : ℕ) :
    (x, y) ∈ allCells labels ↔
      x < labels.length ∧ y < (labels.headD []).length := by
  unfold allCells
  rw [List.mem_flatten]
  constructor
  · rintro ⟨row, hrow, hc⟩
    obtain ⟨i, hi, rfl⟩ := List.mem_map.mp hrow
    obtain ⟨j, hj, hji⟩ := List.mem_map.mp hc
    rw [Prod.mk.injEq] at hji
    obtain ⟨rfl, rfl⟩ := hji
    exact ⟨List.mem_range.mp hi, List.mem_range.mp hj⟩
  · rintro ⟨h1, h2⟩
    exact ⟨(List.range (labels.headD []).length).map (fun j => (x, j)),
      List.mem_map.mpr ⟨x, List.mem_range.mpr h1, rfl⟩,
      List.mem_map.mpr ⟨y, List.mem_range.mpr h2, rfl⟩⟩

/-- A successful label test yields a region cell. -/
theorem mem_regionCells_of_labelEq (labels : Grid ℤ) (val : ℤ) {a b : ℤ}
    (h : labelEq labels val a b = true) :
    (a.toNat, b.toNat) ∈ regionCells labels val := by
  obtain ⟨ha0, halt, hb0, hblt, hval⟩ := labelEq_unpack h
  unfold regionCells
  rw [List.mem_filter]
  refine ⟨(mem_allCells labels a.toNat b.toNat).mpr ⟨by omega, by omega⟩, ?_⟩
  have h1 : ((a.toNat : ℤ)) = a := Int.toNat_of_nonneg ha0
  have h2 : ((b.toNat : ℤ)) = b := Int.toNat_of_nonneg hb0
  show labelEq labels val (a.toNat : ℤ) (b.toNat : ℤ) = true
  rw [h1, h2]
  exact h

/-- The 3x3 erosion is contained in the region (the centre offset is in
the structuring element). -/
theorem labelEq_of_erodeAt {labels : Grid ℤ} {val : ℤ} {i j : ℤ}
    (h : erodeAt labels val i j = true) : labelEq labels val i j = true := by
  unfold erodeAt at h
  rw [List.all_eq_true] at h
  have h0 := h (0, 0) (by decide)
  simpa using h0

/-- C9: the boundary of every labelled region equals the region minus its
3x3 erosion (the XOR equals AND-NOT because the erosion is contained in
the region), every boundary pixel lies in the region, and every region
with at least 9 pixels has a nonempty boundary (its topmost pixel always
fails the erosion test). -/
theorem boundary_invariant (labels : Grid ℤ) (val : ℤ) :
    bounCells labels val =
      (regionCells labels val).filter
        (fun c => !erodeAt labels val c.1 c.2) ∧
    (∀ c ∈ bounCells labels val, c ∈ regionCells labels val) ∧
    (9 ≤ (regionCells labels val).length → bounCells labels val ≠ []) := by
  have hpoint : ∀ c : ℕ × ℕ,
      bounAt labels val c.1 c.2 =
        (!erodeAt labels val c.1 c.2 && labelEq labels val c.1 c.2) := by
    intro c
    unfold bounAt
    cases herode : erodeAt labels val c.1 c.2
    · cases hlab : labelEq labels val c.1 c.2 <;> rfl
    · have hlab := labelEq_of_erodeAt herode
      rw [hlab]
      rfl
  refine ⟨?_, ?_, ?_⟩
  · unfold bounCells regionCells
    rw [List.filter_filter]
    exact List.filter_congr fun c _ => hpoint c
  · intro c hc
    unfold bounCells at hc
    rw [List.mem_filter] at hc
    unfold regionCells
    rw [List.mem_filter]
    refine ⟨hc.1, ?_⟩
    have hb := hc.2
    rw [hpoint c] at hb
    exact (Bool.and_eq_true ..).mp hb |>.2
  · intro hcard
    have hne : regionCells labels val ≠ [] := by
      intro h
      rw [h] at hcard
      simp at hcard
    obtain ⟨c, hc⟩ := List.exists_mem_of_ne_nil _ hne
    have hS : ((regionCells labels val).toFinset.image Prod.fst).Nonempty :=
      ⟨c.1, Finset.mem_image.mpr ⟨c, List.mem_toFinset.mpr hc, rfl⟩⟩
    obtain ⟨p, hpS, hpi⟩ := Finset.mem_image.mp
      (Finset.min'_mem ((regionCells labels val).toFinset.image Prod.fst) hS)
    have hpl : p ∈ regionCells labels val := List.mem_toFinset.mp hpS
    unfold regionCells at hpl
    rw [List.mem_filter] at hpl
    have hlabp : labelEq labels val p.1 p.2 = true := hpl.2
    have herode : erodeAt labels val p.1 p.2 = false := by
      cases herode : erodeAt labels val (p.1 : ℤ) (p.2 : ℤ)
      · rfl
      · exfalso
        unfold erodeAt at herode
        rw [List.all_eq_true] at herode
        have hup := herode (-1, 0) (by decide)
        obtain ⟨ha0, _, _, _, _⟩ := labelEq_unpack hup
        have hmem2 := mem_regionCells_of_labelEq labels val hup
        have hfst : ((p.1 : ℤ) + (-1)).toNat ∈
            (regionCells labels val).toFinset.image Prod.fst :=
          Finset.mem_image.mpr ⟨_, List.mem_toFinset.mpr hmem2, rfl⟩
        have hle := Finset.min'_le _ _ hfst
        omega
    have hbp : bounAt labels val p.1 p.2 = true := by
      rw [hpoint p, herode, hlabp]
      rfl
    have hpb : p ∈ bounCells labels val := by
      unfold bounCells
      rw [List.mem_filter]
      exact ⟨hpl.1, hbp⟩
    exact List.ne_nil_of_mem hpb

/-- C9 witness: the boundary invariant applied to the 9-pixel test
polygon, which indeed has a nonempty boundary. -/
theorem boundary_invariant_witness :
    9 ≤ (regionCells labA 48).length ∧ bounCells labA 48 ≠ [] :=
  ⟨by decide, (boundary_invariant labA 48).2.2 (by decide)⟩
